import Mathlib

/-!
Verification of the Kaleidoscope front end (tokenizer/parser/driver) against
its specification.  The definitions below are a shallow embedding of the C++
sources:

* `Tok` models the values taken by the global `CurTok` (file `headers/Token.h`
  and the lexer `gettok`): the named `Token` enum values, plus raw characters
  in the range 0..255 returned as their ASCII code.  Identifier tokens carry
  `IdentifierStr`; number tokens carry `NumVal` (a C++ `double`, modelled as
  `ℚ`, which is exact for every value that actually occurs in the claims).
* `Table` models the global `std::map<char, int> BinopPrecedence`
  (`headers/Parser.h`), as an association list with unique keys.  `mapIdx`
  models `operator[]` used for reading in `GetTokPrecedence` (which
  value-initializes and inserts a `0` entry when the key is absent),
  `mapInsert` models `operator[]` assignment, `mapErase` models `erase`, and
  `mapFind` models `find`.
* `PState` packages the remaining token stream (the "current token" cursor:
  `curTok` is `CurTok`, `advance` is `getNextToken`) with the table, since the
  C++ parser can both read and write the global map.
* The `Parse*` functions are translated one-to-one from `src/Parser.cpp`,
  with an explicit fuel argument for the mutual recursion; fuel exhaustion
  yields a parse failure, and every claim about concrete inputs picks an
  ample fuel.
* `FunctionCodegenTable` is the Operator-Table effect of
  `FunctionAST::codegen` (`src/codegen.cpp`), with the backend outcomes
  (whether `getFunction` returned a function and whether the body's codegen
  succeeded) abstracted as booleans, since code generation itself is the
  excluded external collaborator.
* `HandleDefinition`, `HandleExtern`, `HandleTopLevelExpression` and
  `MainLoopStep` model one iteration of the driver loop in
  `kaleidoscope.cpp`.
-/

namespace Kaleido

/-- Model of `CurTok` values: the `Token` enum of `headers/Token.h` plus raw
characters 0..255 returned by `gettok` as their code. -/
inductive Tok where
  | eof
  | defKw
  | externKw
  | ifKw
  | thenKw
  | elseKw
  | forKw
  | inKw
  | binaryKw
  | unaryKw
  | ident (s : String)
  | num (v : ℚ)
  | ch (c : Nat)
  deriving DecidableEq, Repr

/-- `isascii(CurTok)`: true exactly for raw characters with code ≤ 127; all
named tokens are negative ints in the C++ code, hence not ascii. -/
def Tok.isAsciiChar : Tok → Bool
  | .ch c => c ≤ 127
  | _ => false

/-- The raw-character payload of a token, if any. -/
def Tok.asChar : Tok → Option Nat
  | .ch c => some c
  | _ => none

/-- Model of `std::map<char, int>`: association list with unique keys. -/
abbrev Table := List (Nat × Int)

/-- `map.find(c)` as an option (no default-insertion). -/
def mapFind : Table → Nat → Option Int
  | [], _ => none
  | (k, v) :: rest, c => if k = c then some v else mapFind rest c

/-- `map::operator[]` used as an rvalue (as in `BinopPrecedence[CurTok]` in
`GetTokPrecedence`): returns the stored value, or value-initializes the entry
to `0` and returns `0` when the key is absent.  The possibly-grown map is
returned alongside the value. -/
def mapIdx : Table → Nat → Int × Table
  | [], c => (0, [(c, 0)])
  | (k, v) :: rest, c =>
      if k = c then (v, (k, v) :: rest)
      else
        let p := mapIdx rest c
        (p.1, (k, v) :: p.2)

/-- `map::operator[] = v`: update in place or append the new entry. -/
def mapInsert : Table → Nat → Int → Table
  | [], c, v => [(c, v)]
  | (k, w) :: rest, c, v =>
      if k = c then (k, v) :: rest else (k, w) :: mapInsert rest c v

/-- `map.erase(c)`: remove the (unique) entry with key `c`. -/
def mapErase : Table → Nat → Table
  | [], _ => []
  | (k, w) :: rest, c => if k = c then rest else (k, w) :: mapErase rest c

/-- Well-formedness invariant of the `std::map` model: keys are unique. -/
def tblWF (t : Table) : Prop := (t.map Prod.fst).Nodup

/-- The seed table of `headers/Parser.h`, in `std::map` key order:
`'*' = 40, '+' = 20, '-' = 20, '/' = 40, '<' = 10, '>' = 10`. -/
def BinopPrecedence : Table :=
  [(42, 40), (43, 20), (45, 20), (47, 40), (60, 10), (62, 10)]

/-- The spec's §4.2 view of the table: `precedenceOf(char)` is the stored
precedence, or `-1` when the key is absent or its value is non-positive. -/
def precedenceOf (t : Table) (c : Nat) : Int :=
  match mapFind t c with
  | some v => if v ≤ 0 then -1 else v
  | none => -1

/-- Parser state: the remaining token stream plus the operator table.  The
head of `toks` is `CurTok`; an exhausted stream stands for `TOK_EOF`
(the lexer keeps returning `TOK_EOF` once the input ends). -/
structure PState where
  toks : List Tok
  table : Table
  deriving DecidableEq, Repr

/-- The current token (`CurTok`). -/
def curTok : List Tok → Tok
  | [] => .eof
  | t :: _ => t

/-- `getNextToken()`: discard the current token. -/
def advance (st : PState) : PState := ⟨st.toks.tail, st.table⟩

/-- `GetTokPrecedence()` from `src/Parser.cpp`:
if `CurTok` is not ascii, return -1; otherwise read
`BinopPrecedence[CurTok]` (which may default-insert a `0` entry) and
return it if positive, else -1.  The (possibly grown) table is threaded
through the state. -/
def GetTokPrecedence (st : PState) : Int × PState :=
  match (curTok st.toks).asChar with
  | some c =>
      if c ≤ 127 then
        if (mapIdx st.table c).1 ≤ 0 then (-1, ⟨st.toks, (mapIdx st.table c).2⟩)
        else ((mapIdx st.table c).1, ⟨st.toks, (mapIdx st.table c).2⟩)
      else (-1, st)
  | none => (-1, st)

/-- The expression AST (`headers/codegen.h`): `NumberExprAST`,
`VariableExprAST`, `UnaryExprAST`, `BinaryExprAST`, `CallExprAST`,
`IfExprAST`, `ForExprAST` (with its optional step). -/
inductive Expr where
  | number (v : ℚ)
  | var (name : String)
  | unary (op : Nat) (operand : Expr)
  | binary (op : Nat) (lhs rhs : Expr)
  | call (callee : String) (args : List Expr)
  | ifE (cond thenE elseE : Expr)
  | forE (varName : String) (start endv : Expr) (step : Option Expr) (body : Expr)

/-- `PrototypeAST`: name, argument names, operator flag, precedence. -/
structure Proto where
  name : String
  args : List String
  isOperator : Bool
  precedence : Nat
  deriving DecidableEq, Repr

/-- `PrototypeAST::isUnaryOp`. -/
def Proto.isUnaryOp (p : Proto) : Bool := p.isOperator && p.args.length == 1

/-- `PrototypeAST::isBinaryOp`. -/
def Proto.isBinaryOp (p : Proto) : Bool := p.isOperator && p.args.length == 2

/-- `PrototypeAST::getOperatorName`: the code of the last character of the
synthesized name. -/
def Proto.getOperatorName (p : Proto) : Nat :=
  match p.name.toList.getLast? with
  | some c => c.toNat
  | none => 0

/-- `ParseNumberExpr` (`src/Parser.cpp`): wrap `NumVal` and consume the
number token. -/
def ParseNumberExpr (v : ℚ) (st : PState) : Option Expr × PState :=
  (some (.number v), advance st)

/-- The argument-collecting loop of `ParsePrototype`:
`while (getNextToken() == TOK_IDENTIFIER) ArgNames.push_back(IdentifierStr);`
applied to the tokens after the `'('`. -/
def collectArgs : List Tok → List String × List Tok
  | .ident s :: rest => (s :: (collectArgs rest).1, (collectArgs rest).2)
  | ts => ([], ts)

/-- The tail of `ParsePrototype` shared by all three kinds: require `'('`,
collect identifier argument names, require `')'`, consume it, and check the
declared arity of operator prototypes. -/
def protoTail (fnName : String) (kind : Nat) (prec : Nat) (st : PState) :
    Option Proto × PState :=
  if curTok st.toks = Tok.ch 40 then
    if curTok (collectArgs st.toks.tail).2 = Tok.ch 41 then
      if kind ≠ 0 ∧ (collectArgs st.toks.tail).1.length ≠ kind then
        (none, ⟨(collectArgs st.toks.tail).2.tail, st.table⟩)
      else
        (some ⟨fnName, (collectArgs st.toks.tail).1, decide (kind ≠ 0), prec⟩,
          ⟨(collectArgs st.toks.tail).2.tail, st.table⟩)
    else (none, ⟨(collectArgs st.toks.tail).2, st.table⟩)
  else (none, st)

/-- `ParsePrototype` (`src/Parser.cpp`): plain identifier, `unary CHAR`,
or `binary CHAR number?` (custom precedence must lie in `[1,100]`,
default `30`; the double `NumVal` is truncated to `unsigned`). -/
def ParsePrototype (st : PState) : Option Proto × PState :=
  match curTok st.toks with
  | .ident s => protoTail s 0 30 (advance st)
  | .unaryKw =>
      match (curTok (advance st).toks).asChar with
      | some c =>
          if c ≤ 127 then
            protoTail (String.push "unary" (Char.ofNat c)) 1 30 (advance (advance st))
          else (none, advance st)
      | none => (none, advance st)
  | .binaryKw =>
      match (curTok (advance st).toks).asChar with
      | some c =>
          if c ≤ 127 then
            match curTok (advance (advance st)).toks with
            | .num v =>
                if v < 1 ∨ v > 100 then (none, advance (advance st))
                else
                  protoTail (String.push "binary" (Char.ofNat c)) 2
                    (Int.toNat v.floor) (advance (advance (advance st)))
            | _ => protoTail (String.push "binary" (Char.ofNat c)) 2 30 (advance (advance st))
          else (none, advance st)
      | none => (none, advance st)
  | _ => (none, st)

mutual

/-- `ParseExpression`: a unary LHS followed by the binop-RHS loop. -/
def ParseExpression : Nat → PState → Option Expr × PState
  | 0, st => (none, st)
  | n + 1, st =>
      match ParseUnary n st with
      | (none, st1) => (none, st1)
      | (some lhs, st1) => ParseBinOpRHS n 0 lhs st1

/-- `ParseUnary`: if the current token is not an ascii character, or is
`'('` or `','`, it must be a primary expression; otherwise consume the
character as a prefix operator and recurse. -/
def ParseUnary : Nat → PState → Option Expr × PState
  | 0, st => (none, st)
  | n + 1, st =>
      match (curTok st.toks).asChar with
      | some c =>
          if c ≤ 127 ∧ c ≠ 40 ∧ c ≠ 44 then
            match ParseUnary n (advance st) with
            | (some operand, st1) => (some (.unary c operand), st1)
            | (none, st1) => (none, st1)
          else ParsePrimary n st
      | none => ParsePrimary n st

/-- `ParsePrimary`: dispatch on the current token; anything unexpected is
the "unknown token when expecting an expression" error. -/
def ParsePrimary : Nat → PState → Option Expr × PState
  | 0, st => (none, st)
  | n + 1, st =>
      match curTok st.toks with
      | .ident _ => ParseIdentifierExpr n st
      | .num v => ParseNumberExpr v st
      | .ch c => if c = 40 then ParseParenExpr n st else (none, st)
      | .ifKw => ParseIfExpr n st
      | .forKw => ParseForExpr n st
      | _ => (none, st)

/-- `ParseParenExpr`: consume `'('`, parse an expression, require `')'`. -/
def ParseParenExpr : Nat → PState → Option Expr × PState
  | 0, st => (none, st)
  | n + 1, st =>
      match ParseExpression n (advance st) with
      | (none, st1) => (none, st1)
      | (some v, st1) =>
          if curTok st1.toks = Tok.ch 41 then (some v, advance st1)
          else (none, st1)

/-- `ParseIdentifierExpr`: a bare variable reference, or a call with a
comma-separated argument list in parentheses. -/
def ParseIdentifierExpr : Nat → PState → Option Expr × PState
  | 0, st => (none, st)
  | n + 1, st =>
      match curTok st.toks with
      | .ident idName =>
          if curTok (advance st).toks = Tok.ch 40 then
            if curTok (advance (advance st)).toks = Tok.ch 41 then
              (some (.call idName []), advance (advance (advance st)))
            else
              match ParseArgs n [] (advance (advance st)) with
              | (some args, st3) => (some (.call idName args), advance st3)
              | (none, st3) => (none, st3)
          else (some (.var idName), advance st)
      | _ => (none, st)

/-- The argument loop inside `ParseIdentifierExpr`: parse an expression,
stop before `')'`, continue after `','`, otherwise error. -/
def ParseArgs : Nat → List Expr → PState → Option (List Expr) × PState
  | 0, _, st => (none, st)
  | n + 1, acc, st =>
      match ParseExpression n st with
      | (none, st1) => (none, st1)
      | (some arg, st1) =>
          if curTok st1.toks = Tok.ch 41 then (some (acc ++ [arg]), st1)
          else if curTok st1.toks = Tok.ch 44 then
            ParseArgs n (acc ++ [arg]) (advance st1)
          else (none, st1)

/-- `ParseBinOpRHS`: the precedence-climbing loop.  Each iteration reads the
pending operator's precedence via `GetTokPrecedence` (which may grow the
table with a `0` entry), stops when it binds less tightly than `ExprPrec`,
otherwise consumes the operator, parses a unary RHS, lets a strictly
tighter-binding next operator absorb the RHS first, and merges. -/
def ParseBinOpRHS : Nat → Int → Expr → PState → Option Expr × PState
  | 0, _, _, st => (none, st)
  | n + 1, exprPrec, lhs, st =>
      match GetTokPrecedence st with
      | (tokPrec, st0) =>
        if tokPrec < exprPrec then (some lhs, st0)
        else
          match (curTok st0.toks).asChar with
          | some c =>
              match ParseUnary n (advance st0) with
              | (none, st2) => (none, st2)
              | (some rhs, st2) =>
                  match GetTokPrecedence st2 with
                  | (nextPrec, st3) =>
                    if tokPrec < nextPrec then
                      match ParseBinOpRHS n (tokPrec + 1) rhs st3 with
                      | (none, st4) => (none, st4)
                      | (some rhs2, st4) =>
                          ParseBinOpRHS n exprPrec (.binary c lhs rhs2) st4
                    else ParseBinOpRHS n exprPrec (.binary c lhs rhs) st3
          | none => (some lhs, st0)

/-- `ParseIfExpr`: `if` cond `then` thenE `else` elseE. -/
def ParseIfExpr : Nat → PState → Option Expr × PState
  | 0, st => (none, st)
  | n + 1, st =>
      match ParseExpression n (advance st) with
      | (none, st1) => (none, st1)
      | (some cond, st1) =>
          if curTok st1.toks = Tok.thenKw then
            match ParseExpression n (advance st1) with
            | (none, st2) => (none, st2)
            | (some thenE, st2) =>
                if curTok st2.toks = Tok.elseKw then
                  match ParseExpression n (advance st2) with
                  | (none, st3) => (none, st3)
                  | (some elseE, st3) => (some (.ifE cond thenE elseE), st3)
                else (none, st2)
          else (none, st1)

/-- `ParseForExpr`: `for` id `=` start `,` end (`,` step)? `in` body; the
step is optional and left absent when its comma is missing. -/
def ParseForExpr : Nat → PState → Option Expr × PState
  | 0, st => (none, st)
  | n + 1, st =>
      match curTok (advance st).toks with
      | .ident idName =>
          if curTok (advance (advance st)).toks = Tok.ch 61 then
            match ParseExpression n (advance (advance (advance st))) with
            | (none, st2) => (none, st2)
            | (some startE, st2) =>
                if curTok st2.toks = Tok.ch 44 then
                  match ParseExpression n (advance st2) with
                  | (none, st3) => (none, st3)
                  | (some endE, st3) =>
                      match
                        (if curTok st3.toks = Tok.ch 44 then
                          match ParseExpression n (advance st3) with
                          | (none, st4) => (none, st4)
                          | (some stepE, st4) => (some (some stepE), st4)
                        else (some none, st3) :
                          Option (Option Expr) × PState) with
                      | (none, st4) => (none, st4)
                      | (some stepOpt, st4) =>
                          if curTok st4.toks = Tok.inKw then
                            match ParseExpression n (advance st4) with
                            | (none, st5) => (none, st5)
                            | (some body, st5) =>
                                (some (.forE idName startE endE stepOpt body), st5)
                          else (none, st4)
                else (none, st2)
          else (none, advance (advance st))
      | _ => (none, advance st)

end

/-- `ParseDefinition`: eat `def`, parse a prototype, then the body
expression; the result models `FunctionAST` as a prototype/body pair. -/
def ParseDefinition (fuel : Nat) (st : PState) : Option (Proto × Expr) × PState :=
  match ParsePrototype (advance st) with
  | (none, st1) => (none, st1)
  | (some proto, st1) =>
      match ParseExpression fuel st1 with
      | (none, st2) => (none, st2)
      | (some body, st2) => (some (proto, body), st2)

/-- `ParseTopLevelExpr`: wrap a bare expression in an anonymous function
whose prototype is `PrototypeAST("__anon_expr", {})`. -/
def ParseTopLevelExpr (fuel : Nat) (st : PState) : Option (Proto × Expr) × PState :=
  match ParseExpression fuel st with
  | (none, st1) => (none, st1)
  | (some e, st1) => (some (⟨"__anon_expr", [], false, 0⟩, e), st1)

/-- `ParseExtern` (source name) : eat `extern`, then parse a prototype. -/
def ParseExternProto (st : PState) : Option Proto × PState :=
  ParsePrototype (advance st)

/-- The Operator-Table effect of `FunctionAST::codegen` (`src/codegen.cpp`):
if `getFunction` yielded no function (`protoOk = false`, which never actually
happens for a freshly recorded prototype) nothing is touched; otherwise a
binary-operator prototype installs its precedence, and when the body's
codegen fails (`bodyOk = false`) the entry just installed for a binary
operator is erased again. -/
def FunctionCodegenTable (p : Proto) (protoOk bodyOk : Bool) (t : Table) : Table :=
  if protoOk then
    if bodyOk then
      if p.isBinaryOp then mapInsert t p.getOperatorName (Int.ofNat p.precedence) else t
    else
      if p.isBinaryOp then
        mapErase (mapInsert t p.getOperatorName (Int.ofNat p.precedence)) p.getOperatorName
      else t
  else t

/-- `HandleDefinition` (`kaleidoscope.cpp`): parse a definition; on success
run `FnAST->codegen()` (its table effect), on failure consume one token for
error recovery. -/
def HandleDefinition (fuel : Nat) (protoOk bodyOk : Bool) (st : PState) : PState :=
  match ParseDefinition fuel st with
  | (some fn, st1) => ⟨st1.toks, FunctionCodegenTable fn.1 protoOk bodyOk st1.table⟩
  | (none, st1) => advance st1

/-- `HandleExtern`: parse an extern prototype; `PrototypeAST::codegen` never
touches the table; on failure consume one token. -/
def HandleExtern (st : PState) : PState :=
  match ParseExternProto st with
  | (some _, st1) => st1
  | (none, st1) => advance st1

/-- `HandleTopLevelExpression`: parse an anonymous function; its codegen runs
`FunctionAST::codegen` on the non-operator prototype `__anon_expr`; on
failure consume one token. -/
def HandleTopLevelExpression (fuel : Nat) (protoOk bodyOk : Bool) (st : PState) : PState :=
  match ParseTopLevelExpr fuel st with
  | (some fn, st1) => ⟨st1.toks, FunctionCodegenTable fn.1 protoOk bodyOk st1.table⟩
  | (none, st1) => advance st1

/-- One iteration of `MainLoop` (`kaleidoscope.cpp`): `none` means the loop
returned (only on `TOK_EOF`); `';'` is consumed silently; `def`/`extern`
dispatch to their handlers; everything else is a top-level expression. -/
def MainLoopStep (fuel : Nat) (protoOk bodyOk : Bool) (st : PState) : Option PState :=
  match curTok st.toks with
  | .eof => none
  | .defKw => some (HandleDefinition fuel protoOk bodyOk st)
  | .externKw => some (HandleExtern st)
  | .ch c =>
      if c = 59 then some (advance st)
      else some (HandleTopLevelExpression fuel protoOk bodyOk st)
  | _ => some (HandleTopLevelExpression fuel protoOk bodyOk st)

/-! ### Preservation of the effective precedence mapping

`GetTokPrecedence` can grow the literal `std::map` with default-inserted
`0` entries, but a `0` entry and an absent entry are indistinguishable
through the spec's `precedenceOf` view.  `TblEq` is equality of that view;
the lemmas below show that the whole expression parser preserves it. -/

/-- Two tables are observationally equal when `precedenceOf` agrees on every
character. -/
def TblEq (t1 t2 : Table) : Prop := ∀ c, precedenceOf t1 c = precedenceOf t2 c

theorem tblEq_refl (t : Table) : TblEq t t := fun _ => rfl

theorem tblEq_trans {a b c : Table} (h1 : TblEq a b) (h2 : TblEq b c) : TblEq a c :=
  fun d => (h1 d).trans (h2 d)

theorem precedenceOf_cons (k : Nat) (v : Int) (t : Table) (d : Nat) :
    precedenceOf ((k, v) :: t) d =
      if k = d then (if v ≤ 0 then -1 else v) else precedenceOf t d := by
  by_cases h : k = d <;> simp [precedenceOf, mapFind, h]

/-- The default-insertion performed by `map::operator[]` reads never changes
the effective precedence of any character. -/
theorem mapIdx_snd_tblEq (t : Table) (c : Nat) : TblEq (mapIdx t c).2 t := by
  induction t with
  | nil =>
      intro d
      by_cases h : c = d <;> simp [mapIdx, precedenceOf, mapFind, h]
  | cons kv rest ih =>
      obtain ⟨k, v⟩ := kv
      intro d
      by_cases h : k = c
      · simp [mapIdx, h]
      · simp only [mapIdx, if_neg h]
        rw [precedenceOf_cons, precedenceOf_cons]
        by_cases hd : k = d
        · simp [hd]
        · simp [hd, ih d]

/-- `GetTokPrecedence` preserves the effective precedence mapping. -/
theorem getTokPrecedence_tblEq (st : PState) :
    TblEq (GetTokPrecedence st).2.table st.table := by
  unfold GetTokPrecedence
  cases (curTok st.toks).asChar with
  | none => exact tblEq_refl _
  | some c =>
      by_cases hc : c ≤ 127
      · simp only [if_pos hc]
        by_cases hp : (mapIdx st.table c).1 ≤ 0
        · simp only [if_pos hp]; exact mapIdx_snd_tblEq st.table c
        · simp only [if_neg hp]; exact mapIdx_snd_tblEq st.table c
      · simp only [if_neg hc]; exact tblEq_refl _

/-- Joint induction on fuel: every expression-parsing function preserves the
effective precedence mapping; its only table writes are the benign
default-insertions performed by `GetTokPrecedence`. -/
theorem parseTablePres : ∀ n : Nat,
    (∀ st, TblEq (ParseExpression n st).2.table st.table) ∧
    (∀ st, TblEq (ParseUnary n st).2.table st.table) ∧
    (∀ st, TblEq (ParsePrimary n st).2.table st.table) ∧
    (∀ st, TblEq (ParseParenExpr n st).2.table st.table) ∧
    (∀ st, TblEq (ParseIdentifierExpr n st).2.table st.table) ∧
    (∀ acc st, TblEq (ParseArgs n acc st).2.table st.table) ∧
    (∀ p lhs st, TblEq (ParseBinOpRHS n p lhs st).2.table st.table) ∧
    (∀ st, TblEq (ParseIfExpr n st).2.table st.table) ∧
    (∀ st, TblEq (ParseForExpr n st).2.table st.table) := by
  intro n
  induction n with
  | zero =>
      exact ⟨fun _ => tblEq_refl _, fun _ => tblEq_refl _, fun _ => tblEq_refl _,
        fun _ => tblEq_refl _, fun _ => tblEq_refl _, fun _ _ => tblEq_refl _,
        fun _ _ _ => tblEq_refl _, fun _ => tblEq_refl _, fun _ => tblEq_refl _⟩
  | succ n ih =>
      obtain ⟨ihE, ihU, ihP, ihParen, ihId, ihArgs, ihBin, ihIf, ihFor⟩ := ih
      refine ⟨?_, ?_, ?_, ?_, ?_, ?_, ?_, ?_, ?_⟩
      · -- ParseExpression
        intro st
        simp only [ParseExpression]
        split
        · rename_i st1 heq
          have hh := ihU st; rw [heq] at hh; exact hh
        · rename_i lhs st1 heq
          have hh : TblEq st1.table st.table := by
            have h2 := ihU st; rw [heq] at h2; exact h2
          exact tblEq_trans (ihBin 0 lhs st1) hh
      · -- ParseUnary
        intro st
        simp only [ParseUnary]
        split
        · rename_i c hac
          split
          · rename_i hcond
            split
            · rename_i operand st1 heq
              have hh := ihU (advance st); rw [heq] at hh; exact hh
            · rename_i st1 heq
              have hh := ihU (advance st); rw [heq] at hh; exact hh
          · exact ihP st
        · exact ihP st
      · -- ParsePrimary
        intro st
        simp only [ParsePrimary]
        split
        · exact ihId st
        · exact tblEq_refl _
        · split
          · exact ihParen st
          · exact tblEq_refl _
        · exact ihIf st
        · exact ihFor st
        · exact tblEq_refl _
      · -- ParseParenExpr
        intro st
        simp only [ParseParenExpr]
        split
        · rename_i st1 heq
          have hh := ihE (advance st); rw [heq] at hh; exact hh
        · rename_i v st1 heq
          have hh : TblEq st1.table st.table := by
            have h2 := ihE (advance st); rw [heq] at h2; exact h2
          split
          · exact hh
          · exact hh
      · -- ParseIdentifierExpr
        intro st
        simp only [ParseIdentifierExpr]
        split
        · rename_i idName heq
          split
          · split
            · exact tblEq_refl _
            · split
              · rename_i args st3 heq2
                have hh := ihArgs [] (advance (advance st)); rw [heq2] at hh; exact hh
              · rename_i st3 heq2
                have hh := ihArgs [] (advance (advance st)); rw [heq2] at hh; exact hh
          · exact tblEq_refl _
        · exact tblEq_refl _
      · -- ParseArgs
        intro acc st
        simp only [ParseArgs]
        split
        · rename_i st1 heq
          have hh := ihE st; rw [heq] at hh; exact hh
        · rename_i arg st1 heq
          have hh : TblEq st1.table st.table := by
            have h2 := ihE st; rw [heq] at h2; exact h2
          split
          · exact hh
          · split
            · exact tblEq_trans (ihArgs (acc ++ [arg]) (advance st1)) hh
            · exact hh
      · -- ParseBinOpRHS
        intro p lhs st
        have hg1 : TblEq (GetTokPrecedence st).2.table st.table :=
          getTokPrecedence_tblEq st
        simp only [ParseBinOpRHS]
        split
        · exact hg1
        · split
          · rename_i c hac
            split
            · rename_i st2 heq
              have hu := ihU (advance (GetTokPrecedence st).2); rw [heq] at hu
              exact tblEq_trans hu hg1
            · rename_i rhs st2 heq
              have hu : TblEq st2.table st.table := by
                have h2 := ihU (advance (GetTokPrecedence st).2); rw [heq] at h2
                exact tblEq_trans h2 hg1
              have hg3 : TblEq (GetTokPrecedence st2).2.table st2.table :=
                getTokPrecedence_tblEq st2
              have base : TblEq (GetTokPrecedence st2).2.table st.table :=
                tblEq_trans hg3 hu
              split
              · split
                · rename_i st4 heq2
                  have hb := ihBin ((GetTokPrecedence st).1 + 1) rhs
                    (GetTokPrecedence st2).2
                  rw [heq2] at hb
                  exact tblEq_trans hb base
                · rename_i rhs2 st4 heq2
                  have hb : TblEq st4.table (GetTokPrecedence st2).2.table := by
                    have h2 := ihBin ((GetTokPrecedence st).1 + 1) rhs
                      (GetTokPrecedence st2).2
                    rw [heq2] at h2; exact h2
                  exact tblEq_trans (ihBin p (.binary c lhs rhs2) st4)
                    (tblEq_trans hb base)
              · exact tblEq_trans (ihBin p (.binary c lhs rhs)
                  (GetTokPrecedence st2).2) base
          · exact hg1
      · -- ParseIfExpr
        intro st
        simp only [ParseIfExpr]
        split
        · rename_i st1 heq
          have hh := ihE (advance st); rw [heq] at hh; exact hh
        · rename_i cond st1 heq
          have hh : TblEq st1.table st.table := by
            have h2 := ihE (advance st); rw [heq] at h2; exact h2
          split
          · split
            · rename_i st2 heq2
              have h3 := ihE (advance st1); rw [heq2] at h3
              exact tblEq_trans h3 hh
            · rename_i thenE st2 heq2
              have h3 : TblEq st2.table st1.table := by
                have h4 := ihE (advance st1); rw [heq2] at h4; exact h4
              split
              · split
                · rename_i st3 heq3
                  have h5 := ihE (advance st2); rw [heq3] at h5
                  exact tblEq_trans h5 (tblEq_trans h3 hh)
                · rename_i elseE st3 heq3
                  have h5 : TblEq st3.table st2.table := by
                    have h6 := ihE (advance st2); rw [heq3] at h6; exact h6
                  exact tblEq_trans h5 (tblEq_trans h3 hh)
              · exact tblEq_trans h3 hh
          · exact hh
      · -- ParseForExpr
        intro st
        simp only [ParseForExpr]
        split
        · rename_i idName heq
          split
          · split
            · rename_i st2 heq2
              have hh := ihE (advance (advance (advance st))); rw [heq2] at hh; exact hh
            · rename_i startE st2 heq2
              have hh : TblEq st2.table st.table := by
                have h2 := ihE (advance (advance (advance st))); rw [heq2] at h2; exact h2
              split
              · split
                · rename_i st3 heq3
                  have h3 := ihE (advance st2); rw [heq3] at h3
                  exact tblEq_trans h3 hh
                · rename_i endE st3 heq3
                  have h3 : TblEq st3.table st2.table := by
                    have h4 := ihE (advance st2); rw [heq3] at h4; exact h4
                  split
                  · rename_i st4 heq4
                    have h5 : TblEq st4.table st3.table := by
                      revert heq4
                      split
                      · split
                        · rename_i st4' heq5
                          intro heq4
                          cases heq4
                          have h6 := ihE (advance st3); rw [heq5] at h6; exact h6
                        · rename_i stepE st4' heq5
                          intro heq4
                          cases heq4
                      · intro heq4
                        cases heq4
                    exact tblEq_trans h5 (tblEq_trans h3 hh)
                  · rename_i stepOpt st4 heq4
                    have h5 : TblEq st4.table st3.table := by
                      revert heq4
                      split
                      · split
                        · rename_i st4' heq5
                          intro heq4
                          cases heq4
                        · rename_i stepE st4' heq5
                          intro heq4
                          cases heq4
                          have h6 := ihE (advance st3); rw [heq5] at h6; exact h6
                      · intro heq4
                        cases heq4
                        exact tblEq_refl _
                    have base : TblEq st4.table st.table :=
                      tblEq_trans h5 (tblEq_trans h3 hh)
                    split
                    · split
                      · rename_i st5 heq5
                        have h6 := ihE (advance st4); rw [heq5] at h6
                        exact tblEq_trans h6 base
                      · rename_i body st5 heq5
                        have h6 : TblEq st5.table st4.table := by
                          have h7 := ihE (advance st4); rw [heq5] at h7; exact h7
                        exact tblEq_trans h6 base
                    · exact base
              · exact hh
          · exact tblEq_refl _
        · exact tblEq_refl _

/-- `protoTail` never touches the table. -/
theorem protoTail_table (fnName : String) (kind prec : Nat) (st : PState) :
    (protoTail fnName kind prec st).2.table = st.table := by
  unfold protoTail
  split
  · split
    · split <;> rfl
    · rfl
  · rfl

/-- `ParsePrototype` never touches the table. -/
theorem parsePrototype_table (st : PState) :
    (ParsePrototype st).2.table = st.table := by
  unfold ParsePrototype
  split
  · exact protoTail_table ..
  · split
    · split
      · exact protoTail_table ..
      · rfl
    · rfl
  · split
    · split
      · split
        · split
          · rfl
          · exact protoTail_table ..
        · exact protoTail_table ..
      · rfl
    · rfl
  · rfl

/-- `ParseDefinition` preserves the effective precedence mapping (the
prototype part never touches the table, the body part is covered by
`parseTablePres`). -/
theorem parseDefinition_tblEq (fuel : Nat) (st : PState) :
    TblEq (ParseDefinition fuel st).2.table st.table := by
  unfold ParseDefinition
  split
  · rename_i st1 heq
    have h := parsePrototype_table (advance st)
    rw [heq] at h
    intro c; rw [h]; exact rfl
  · rename_i proto st1 heq
    have h : st1.table = st.table := by
      have h2 := parsePrototype_table (advance st); rw [heq] at h2; exact h2
    split
    · rename_i st2 heq2
      have h3 := (parseTablePres fuel).1 st1
      rw [heq2] at h3
      intro c; rw [h3 c, h]
    · rename_i body st2 heq2
      have h3 := (parseTablePres fuel).1 st1
      rw [heq2] at h3
      intro c; rw [h3 c, h]

/-- A key that is not among a table's keys is not found. -/
theorem mapFind_eq_none_of_not_mem {t : Table} {c : Nat}
    (h : ¬ c ∈ t.map Prod.fst) : mapFind t c = none := by
  induction t with
  | nil => rfl
  | cons kv rest ih =>
      obtain ⟨k, v⟩ := kv
      simp only [List.map_cons, List.mem_cons] at h
      push_neg at h
      simp only [mapFind, if_neg (Ne.symm h.1)]
      exact ih h.2

/-- On a well-keyed table, installing and then erasing a key removes it. -/
theorem mapFind_erase_insert {t : Table} (hWF : tblWF t) (c : Nat) (v : Int) :
    mapFind (mapErase (mapInsert t c v) c) c = none := by
  induction t with
  | nil => simp [mapInsert, mapErase, mapFind]
  | cons kv rest ih =>
      obtain ⟨k, w⟩ := kv
      simp only [tblWF, List.map_cons, List.nodup_cons] at hWF
      by_cases h : k = c
      · subst h
        simp only [mapInsert, if_pos rfl, mapErase, if_pos rfl]
        exact mapFind_eq_none_of_not_mem hWF.1
      · simp only [mapInsert, if_neg h, mapErase, if_neg h, mapFind, if_neg h]
        exact ih hWF.2

/-- A unary-operator prototype is never classified as a binary operator. -/
theorem isBinaryOp_false_of_isUnaryOp {p : Proto} (h : p.isUnaryOp = true) :
    p.isBinaryOp = false := by
  simp only [Proto.isUnaryOp, Bool.and_eq_true, beq_iff_eq] at h
  simp only [Proto.isBinaryOp, h.1, Bool.true_and, beq_eq_false_iff_ne, ne_eq, h.2]
  omega

/-- A token whose `asChar` is `some c` is the raw character `c`. -/
theorem tok_eq_ch_of_asChar {t : Tok} {c : Nat} (h : t.asChar = some c) :
    t = Tok.ch c := by
  cases t <;> simp [Tok.asChar] at h
  rw [h]

/-! ### The claims -/

/-- Claim C3: with the built-in seed table (`<`,`>` = 10; `+`,`-` = 20;
`*`,`/` = 40), `ParseExpression` applied to the token stream of `a+b*c`
(`+` = 43, `*` = 42) returns `Binary('+', Variable "a",
Binary('*', Variable "b", Variable "c"))`: the higher-precedence `*` is
grouped deeper than `+`.  The whole stream is consumed and the table is
untouched (every operator involved is defined). -/
theorem claim_C3 :
    ParseExpression 16
      ⟨[.ident "a", .ch 43, .ident "b", .ch 42, .ident "c"], BinopPrecedence⟩
      = (some (.binary 43 (.var "a") (.binary 42 (.var "b") (.var "c"))),
          ⟨[], BinopPrecedence⟩) := rfl

/-- Claim C4: operators of equal precedence associate to the left:
`ParseExpression` on the token stream of `a-b-c` (`-` = 45) returns
`Binary('-', Binary('-', Variable "a", Variable "b"), Variable "c")`,
because the recursive-absorb test in `ParseBinOpRHS` uses strict
greater-than (`TokPrec < NextPrec`). -/
theorem claim_C4 :
    ParseExpression 16
      ⟨[.ident "a", .ch 45, .ident "b", .ch 45, .ident "c"], BinopPrecedence⟩
      = (some (.binary 45 (.binary 45 (.var "a") (.var "b")) (.var "c")),
          ⟨[], BinopPrecedence⟩) := rfl

/-- Claim C8: in a for-expression the step is optional: `ParseForExpr` on
the token stream of `for i = 1, 10 in i` returns a `For` node with
`step = none`, and on `for i = 1, 10, 2 in i` a `For` node with
`step = some (Number 2)`; both carry the loop variable, start, end and
body.  (The final table gains the inert default-`0` entry for `','` = 44
that `GetTokPrecedence` inserts when probing the comma.) -/
theorem claim_C8 :
    ParseForExpr 16
      ⟨[.forKw, .ident "i", .ch 61, .num 1, .ch 44, .num 10, .inKw, .ident "i"],
        BinopPrecedence⟩
      = (some (.forE "i" (.number 1) (.number 10) none (.var "i")),
          ⟨[], BinopPrecedence ++ [(44, 0)]⟩)
    ∧ ParseForExpr 16
      ⟨[.forKw, .ident "i", .ch 61, .num 1, .ch 44, .num 10, .ch 44, .num 2,
          .inKw, .ident "i"], BinopPrecedence⟩
      = (some (.forE "i" (.number 1) (.number 10) (some (.number 2)) (.var "i")),
          ⟨[], BinopPrecedence ++ [(44, 0)]⟩) := ⟨rfl, rfl⟩

/-- Claim C2, counterexample: parsing `a $ b` (`$` = 36, not a defined
operator) leaves a brand-new `($, 0)` entry in the literal `std::map`,
because `GetTokPrecedence` reads it with `BinopPrecedence[CurTok]`, whose
`operator[]` default-inserts.  So expression parsing does write the map,
and the table after `ParseExpression` is not the table before. -/
theorem claim_C2_counterexample :
    mapFind (ParseExpression 16
        ⟨[.ident "a", .ch 36, .ident "b"], BinopPrecedence⟩).2.table 36 = some 0
    ∧ mapFind BinopPrecedence 36 = none
    ∧ (ParseExpression 16
        ⟨[.ident "a", .ch 36, .ident "b"], BinopPrecedence⟩).2.table
        ≠ BinopPrecedence := by
  refine ⟨rfl, rfl, ?_⟩
  decide

/-- Claim C2, amended: `ParseExpression` preserves the *effective*
precedence mapping: for every fuel, every starting state and every
character, the `precedenceOf` view of the table after the call equals the
view before it.  (The literal `std::map` may gain default-inserted `0`
entries, which the view cannot distinguish from absent ones; no positive
entry is ever written by expression parsing.) -/
theorem claim_C2 :
    ∀ (fuel : Nat) (st : PState) (c : Nat),
      precedenceOf (ParseExpression fuel st).2.table c = precedenceOf st.table c :=
  fun fuel st c => (parseTablePres fuel).1 st c

/-- Claim C1, counterexample: `def binary+ 5 (a b) )` is a binary-operator
definition whose body fails to parse (the body token `)` has no operand).
`ParseDefinition` fails, so `FunctionAST::codegen` never runs and the table
is never written: afterwards the lookup for `+` (= 43) still yields its
built-in precedence 20, not -1 — `+` remains usable as an infix operator. -/
theorem claim_C1_counterexample :
    (ParseDefinition 16
        ⟨[.defKw, .binaryKw, .ch 43, .num 5, .ch 40, .ident "a", .ident "b",
            .ch 41, .ch 41], BinopPrecedence⟩).1 = none
    ∧ precedenceOf (HandleDefinition 16 true true
        ⟨[.defKw, .binaryKw, .ch 43, .num 5, .ch 40, .ident "a", .ident "b",
            .ch 41, .ch 41], BinopPrecedence⟩).table 43 = 20
    ∧ precedenceOf (HandleDefinition 16 true true
        ⟨[.defKw, .binaryKw, .ch 43, .num 5, .ch 40, .ident "a", .ident "b",
            .ch 41, .ch 41], BinopPrecedence⟩).table 43 ≠ -1 := by
  refine ⟨rfl, rfl, ?_⟩
  decide

/-- Claim C1, amended: the rollback is exactly the backend half.  (1) When
the prototype was accepted but the body's *codegen* is rejected,
`FunctionAST::codegen` erases the entry it installed for a binary operator,
so the subsequent lookup of that operator character yields -1.  (2) When
the body (or prototype) fails to *parse*, the table is never written by the
definition, so every character's effective precedence is what it was before
the form — the lookup yields -1 only if the character was not already an
infix operator. -/
theorem claim_C1 :
    (∀ (p : Proto) (t : Table), tblWF t → p.isBinaryOp = true →
      precedenceOf (FunctionCodegenTable p true false t) p.getOperatorName = -1)
    ∧ (∀ (fuel : Nat) (protoOk bodyOk : Bool) (st : PState) (c : Nat),
        (ParseDefinition fuel st).1 = none →
        precedenceOf (HandleDefinition fuel protoOk bodyOk st).table c
          = precedenceOf st.table c) := by
  constructor
  · intro p t hWF hB
    unfold FunctionCodegenTable
    simp only [if_pos rfl, Bool.false_eq_true, if_false, hB, if_true]
    unfold precedenceOf
    rw [mapFind_erase_insert hWF]
  · intro fuel protoOk bodyOk st c hfail
    rcases hd : ParseDefinition fuel st with ⟨o, st1⟩
    rw [hd] at hfail
    simp only at hfail
    subst hfail
    have h := parseDefinition_tblEq fuel st
    rw [hd] at h
    unfold HandleDefinition
    rw [hd]
    exact h c

/-- Claim C1, witness: both branches of the amended claim at concrete
inputs.  Installing `binary|` (`|` = 124) at precedence 5 over the seed
table and then rejecting its body leaves `|` at -1; and after the failed
form of the counterexample input the table view is unchanged. -/
theorem claim_C1_witness :
    (tblWF BinopPrecedence
      ∧ precedenceOf
          (FunctionCodegenTable ⟨"binary|", ["a", "b"], true, 5⟩ true false
            BinopPrecedence)
          (Proto.getOperatorName ⟨"binary|", ["a", "b"], true, 5⟩) = -1)
    ∧ ((ParseDefinition 16 ⟨[.defKw, .ch 41], BinopPrecedence⟩).1 = none
      ∧ precedenceOf (HandleDefinition 16 true true
          ⟨[.defKw, .ch 41], BinopPrecedence⟩).table 43
          = precedenceOf BinopPrecedence 43) :=
  ⟨⟨by unfold tblWF; decide,
      claim_C1.1 ⟨"binary|", ["a", "b"], true, 5⟩ BinopPrecedence
        (by unfold tblWF; decide) rfl⟩,
    ⟨rfl, claim_C1.2 16 true true ⟨[.defKw, .ch 41], BinopPrecedence⟩ 43 rfl⟩⟩

/-- Claim C9, counterexample: processing the unary definition
`def unary! (v) v $ 1` (`!` = 33, `$` = 36) *does* mutate the literal
Operator Table: while parsing the body, `GetTokPrecedence` probes the
pending `$` and `operator[]` default-inserts a `($, 0)` entry, so the map
after the form differs from the map before it (the codegen install/erase
steps themselves are skipped for the unary prototype). -/
theorem claim_C9_counterexample :
    (ParseDefinition 16
        ⟨[.defKw, .unaryKw, .ch 33, .ch 40, .ident "v", .ch 41, .ident "v",
            .ch 36, .num 1], BinopPrecedence⟩).1
      = some (⟨"unary!", ["v"], true, 30⟩, .var "v")
    ∧ Proto.isUnaryOp ⟨"unary!", ["v"], true, 30⟩ = true
    ∧ mapFind (HandleDefinition 16 true true
        ⟨[.defKw, .unaryKw, .ch 33, .ch 40, .ident "v", .ch 41, .ident "v",
            .ch 36, .num 1], BinopPrecedence⟩).table 36 = some 0
    ∧ mapFind BinopPrecedence 36 = none
    ∧ (HandleDefinition 16 true true
        ⟨[.defKw, .unaryKw, .ch 33, .ch 40, .ident "v", .ch 41, .ident "v",
            .ch 36, .num 1], BinopPrecedence⟩).table ≠ BinopPrecedence := by
  refine ⟨rfl, rfl, rfl, rfl, ?_⟩
  decide

/-- Claim C9, amended: the install-on-accept and erase-on-reject steps of
`FunctionAST::codegen` apply only to binary-operator prototypes, so (1) for
a unary prototype `FunctionCodegenTable` is literally the identity whatever
the backend outcomes, and (2) processing a parsed unary definition
preserves the *effective* precedence mapping of every character (only
inert default-`0` entries from body parsing can appear in the literal
map). -/
theorem claim_C9 :
    (∀ (p : Proto) (protoOk bodyOk : Bool) (t : Table), p.isUnaryOp = true →
      FunctionCodegenTable p protoOk bodyOk t = t)
    ∧ (∀ (fuel : Nat) (protoOk bodyOk : Bool) (st : PState) (p : Proto)
        (body : Expr) (c : Nat),
        (ParseDefinition fuel st).1 = some (p, body) → p.isUnaryOp = true →
        precedenceOf (HandleDefinition fuel protoOk bodyOk st).table c
          = precedenceOf st.table c) := by
  have hid : ∀ (p : Proto) (protoOk bodyOk : Bool) (t : Table),
      p.isUnaryOp = true → FunctionCodegenTable p protoOk bodyOk t = t := by
    intro p protoOk bodyOk t h
    have hB := isBinaryOp_false_of_isUnaryOp h
    unfold FunctionCodegenTable
    rw [hB]
    cases protoOk <;> cases bodyOk <;> simp
  refine ⟨hid, ?_⟩
  intro fuel protoOk bodyOk st p body c hparse hU
  rcases hd : ParseDefinition fuel st with ⟨o, st1⟩
  rw [hd] at hparse
  simp only at hparse
  subst hparse
  have h := parseDefinition_tblEq fuel st
  rw [hd] at h
  unfold HandleDefinition
  rw [hd]
  simp only
  rw [hid p protoOk bodyOk st1.table hU]
  exact h c

/-- Claim C9, witness: the codegen step is the identity for the concrete
unary prototype `unary!`, and processing `def unary! (v) v $ 1` leaves the
effective precedence of `$` (= 36) unchanged (it stays -1). -/
theorem claim_C9_witness :
    (FunctionCodegenTable ⟨"unary!", ["v"], true, 30⟩ true false BinopPrecedence
      = BinopPrecedence)
    ∧ precedenceOf (HandleDefinition 16 true true
        ⟨[.defKw, .unaryKw, .ch 33, .ch 40, .ident "v", .ch 41, .ident "v",
            .ch 36, .num 1], BinopPrecedence⟩).table 36
      = precedenceOf BinopPrecedence 36 :=
  ⟨claim_C9.1 ⟨"unary!", ["v"], true, 30⟩ true false BinopPrecedence rfl,
    claim_C9.2 16 true true
      ⟨[.defKw, .unaryKw, .ch 33, .ch 40, .ident "v", .ch 41, .ident "v",
          .ch 36, .num 1], BinopPrecedence⟩
      ⟨"unary!", ["v"], true, 30⟩ (.var "v") 36 rfl rfl⟩

/-- Claim C5: `ParseUnary` treats every current token that is an ASCII
character other than `(` (= 40) and `,` (= 44) as a prefix operator —
without consulting any table of defined unary operators — consuming it,
recursing for the operand, and wrapping the result in a `Unary` node
(failing exactly when the operand parse fails); for every other current
token (non-character tokens, characters above 127, `(` and `,`) it
delegates to `ParsePrimary`. -/
theorem claim_C5 : ∀ (fuel : Nat) (st : PState),
    ((curTok st.toks).isAsciiChar = false ∨ curTok st.toks = Tok.ch 40
        ∨ curTok st.toks = Tok.ch 44 →
      ParseUnary (fuel + 1) st = ParsePrimary fuel st)
    ∧ (∀ c : Nat, curTok st.toks = Tok.ch c → c ≤ 127 → c ≠ 40 → c ≠ 44 →
      ParseUnary (fuel + 1) st =
        match ParseUnary fuel (advance st) with
        | (some operand, st1) => (some (.unary c operand), st1)
        | (none, st1) => (none, st1)) := by
  intro fuel st
  constructor
  · intro h
    simp only [ParseUnary]
    cases hac : (curTok st.toks).asChar with
    | none => rfl
    | some c =>
        have hch := tok_eq_ch_of_asChar hac
        have hncond : ¬ (c ≤ 127 ∧ c ≠ 40 ∧ c ≠ 44) := by
          intro hcond
          rcases h with h | h | h
          · rw [hch] at h
            simp only [Tok.isAsciiChar, decide_eq_false_iff_not] at h
            exact h hcond.1
          · rw [h] at hch; injection hch with hc; exact hcond.2.1 hc.symm
          · rw [h] at hch; injection hch with hc; exact hcond.2.2 hc.symm
        change (if c ≤ 127 ∧ c ≠ 40 ∧ c ≠ 44 then
            match ParseUnary fuel (advance st) with
            | (some operand, st1) => (some (Expr.unary c operand), st1)
            | (none, st1) => (none, st1)
          else ParsePrimary fuel st) = ParsePrimary fuel st
        rw [if_neg hncond]
  · intro c hcur h127 h40 h44
    simp only [ParseUnary]
    rw [hcur]
    simp only [Tok.asChar]
    rw [if_pos ⟨h127, h40, h44⟩]

/-- Claim C5, witness: an identifier current token delegates to
`ParsePrimary`, and `!x` (`!` = 33) takes the prefix-operator path. -/
theorem claim_C5_witness :
    (ParseUnary 6 ⟨[.ident "y"], BinopPrecedence⟩
        = ParsePrimary 5 ⟨[.ident "y"], BinopPrecedence⟩)
    ∧ (ParseUnary 6 ⟨[.ch 33, .ident "x"], BinopPrecedence⟩
        = match ParseUnary 5 (advance ⟨[.ch 33, .ident "x"], BinopPrecedence⟩) with
          | (some operand, st1) => (some (.unary 33 operand), st1)
          | (none, st1) => (none, st1)) :=
  ⟨(claim_C5 5 ⟨[.ident "y"], BinopPrecedence⟩).1 (Or.inl rfl),
    (claim_C5 5 ⟨[.ch 33, .ident "x"], BinopPrecedence⟩).2 33 rfl (by decide)
      (by decide) (by decide)⟩

/-- Claim C6: in a `binary`-keyword prototype, an optional number token
after the operator character sets the custom precedence.  (1) When the
number is present and lies outside `[1,100]` the prototype parse fails;
(2) when it is absent the parsed prototype carries the default
precedence 30; (3) when it is present and lies inside `[1,100]` the
parse does not fail (for a well-formed two-parameter remainder). -/
theorem claim_C6 :
    (∀ (c : Nat) (v : ℚ) (rest : List Tok) (t : Table), c ≤ 127 →
      (v < 1 ∨ v > 100) →
      (ParsePrototype ⟨.binaryKw :: .ch c :: .num v :: rest, t⟩).1 = none)
    ∧ (∀ (c : Nat) (a b : String) (rest : List Tok) (t : Table), c ≤ 127 →
      ParsePrototype
          ⟨.binaryKw :: .ch c :: .ch 40 :: .ident a :: .ident b :: .ch 41 :: rest, t⟩
        = (some ⟨String.push "binary" (Char.ofNat c), [a, b], true, 30⟩, ⟨rest, t⟩))
    ∧ (∀ (c : Nat) (v : ℚ) (a b : String) (rest : List Tok) (t : Table),
      c ≤ 127 → 1 ≤ v → v ≤ 100 →
      ((ParsePrototype ⟨.binaryKw :: .ch c :: .num v :: .ch 40 :: .ident a ::
          .ident b :: .ch 41 :: rest, t⟩).1).isSome = true) := by
  refine ⟨?_, ?_, ?_⟩
  · intro c v rest t hc hrange
    simp only [ParsePrototype, curTok, advance, List.tail_cons, Tok.asChar]
    rw [if_pos hc, if_pos hrange]
  · intro c a b rest t hc
    simp only [ParsePrototype, curTok, advance, List.tail_cons, Tok.asChar,
      protoTail, collectArgs]
    rw [if_pos hc]
    simp
  · intro c v a b rest t hc h1 h100
    have hrange : ¬ (v < 1 ∨ v > 100) := by
      rw [not_or]
      exact ⟨not_lt.mpr h1, not_lt.mpr h100⟩
    simp only [ParsePrototype, curTok, advance, List.tail_cons, Tok.asChar,
      protoTail, collectArgs]
    rw [if_pos hc, if_neg hrange]
    simp

/-- Claim C6, witness: `binary| 200 (a b)` is rejected (200 is out of
range), `binary| (a b)` gets default precedence 30, and `binary| 7 (a b)`
is accepted. -/
theorem claim_C6_witness :
    ((ParsePrototype ⟨[.binaryKw, .ch 124, .num 200, .ch 40, .ident "a",
        .ident "b", .ch 41], BinopPrecedence⟩).1 = none)
    ∧ (ParsePrototype ⟨[.binaryKw, .ch 124, .ch 40, .ident "a", .ident "b",
        .ch 41], BinopPrecedence⟩
      = (some ⟨String.push "binary" (Char.ofNat 124), ["a", "b"], true, 30⟩,
          ⟨[], BinopPrecedence⟩))
    ∧ ((ParsePrototype ⟨[.binaryKw, .ch 124, .num 7, .ch 40, .ident "a",
        .ident "b", .ch 41], BinopPrecedence⟩).1).isSome = true :=
  ⟨claim_C6.1 124 200 [.ch 40, .ident "a", .ident "b", .ch 41] BinopPrecedence
      (by decide) (Or.inr (by decide)),
    claim_C6.2.1 124 "a" "b" [] BinopPrecedence (by decide),
    claim_C6.2.2 124 7 "a" "b" [] BinopPrecedence (by decide) (by decide)
      (by decide)⟩

/-- Claim C10: the custom-precedence token is read as a floating-point
literal (`NumVal`, modelled exactly as a rational here) and only
range-checked: every `v` with `1 ≤ v ≤ 100` is accepted — including
non-integers — and the stored precedence is `v` truncated toward zero
(`(unsigned)NumVal`, which for `v ≥ 1` is the floor), while `v < 1` or
`v > 100` is a parse error. -/
theorem claim_C10 :
    (∀ (c : Nat) (v : ℚ) (a b : String) (rest : List Tok) (t : Table),
      c ≤ 127 → 1 ≤ v → v ≤ 100 →
      ParsePrototype ⟨.binaryKw :: .ch c :: .num v :: .ch 40 :: .ident a ::
          .ident b :: .ch 41 :: rest, t⟩
        = (some ⟨String.push "binary" (Char.ofNat c), [a, b], true,
            Int.toNat v.floor⟩, ⟨rest, t⟩))
    ∧ (∀ (c : Nat) (v : ℚ) (rest : List Tok) (t : Table), c ≤ 127 →
      (v < 1 ∨ v > 100) →
      (ParsePrototype ⟨.binaryKw :: .ch c :: .num v :: rest, t⟩).1 = none) := by
  constructor
  · intro c v a b rest t hc h1 h100
    have hrange : ¬ (v < 1 ∨ v > 100) := by
      rw [not_or]
      exact ⟨not_lt.mpr h1, not_lt.mpr h100⟩
    simp only [ParsePrototype, curTok, advance, List.tail_cons, Tok.asChar,
      protoTail, collectArgs]
    rw [if_pos hc, if_neg hrange]
    simp
  · intro c v rest t hc hrange
    simp only [ParsePrototype, curTok, advance, List.tail_cons, Tok.asChar]
    rw [if_pos hc, if_pos hrange]

/-- Claim C10, witness: the literal `5.5` (= 11/2) is in range and is
accepted with stored precedence 5 (truncation toward zero), while `100.5`
is rejected. -/
theorem claim_C10_witness :
    (ParsePrototype ⟨[.binaryKw, .ch 124, .num (mkRat 11 2), .ch 40, .ident "x",
        .ident "y", .ch 41], BinopPrecedence⟩
      = (some ⟨"binary|", ["x", "y"], true, 5⟩, ⟨[], BinopPrecedence⟩))
    ∧ ((ParsePrototype ⟨[.binaryKw, .ch 124, .num (mkRat 201 2), .ch 40,
        .ident "x", .ident "y", .ch 41], BinopPrecedence⟩).1 = none) :=
  ⟨(claim_C10.1 124 (mkRat 11 2) "x" "y" [] BinopPrecedence (by decide)
      (by decide) (by decide)).trans (by decide),
    claim_C10.2 124 (mkRat 201 2) [.ch 40, .ident "x", .ident "y", .ch 41]
      BinopPrecedence (by decide) (Or.inr (by decide))⟩

/-- Claim C7: the driver loop exits exactly on the end-of-input token, and
whenever a top-level form fails to parse, the handler consumes exactly one
additional token (beyond those the failed parse consumed) and the loop
continues: on `def`, `extern` and expression forms alike, a failed parse
yields `some` next state whose stream is the failed parse's stream with
one more token discarded. -/
theorem claim_C7 : ∀ (fuel : Nat) (protoOk bodyOk : Bool) (st : PState),
    (MainLoopStep fuel protoOk bodyOk st = none ↔ curTok st.toks = Tok.eof)
    ∧ (curTok st.toks = Tok.defKw → (ParseDefinition fuel st).1 = none →
        MainLoopStep fuel protoOk bodyOk st
          = some (advance (ParseDefinition fuel st).2))
    ∧ (curTok st.toks = Tok.externKw → (ParseExternProto st).1 = none →
        MainLoopStep fuel protoOk bodyOk st
          = some (advance (ParseExternProto st).2))
    ∧ (curTok st.toks ≠ Tok.eof → curTok st.toks ≠ Tok.defKw →
        curTok st.toks ≠ Tok.externKw → curTok st.toks ≠ Tok.ch 59 →
        (ParseTopLevelExpr fuel st).1 = none →
        MainLoopStep fuel protoOk bodyOk st
          = some (advance (ParseTopLevelExpr fuel st).2)) := by
  intro fuel protoOk bodyOk st
  refine ⟨?_, ?_, ?_, ?_⟩
  · unfold MainLoopStep
    cases hc : curTok st.toks <;> simp
    split <;> simp
  · intro h hn
    unfold MainLoopStep
    rw [h]
    show some (HandleDefinition fuel protoOk bodyOk st)
      = some (advance (ParseDefinition fuel st).2)
    unfold HandleDefinition
    rcases hd : ParseDefinition fuel st with ⟨o, st1⟩
    rw [hd] at hn
    simp only at hn
    subst hn
    rfl
  · intro h hn
    unfold MainLoopStep
    rw [h]
    show some (HandleExtern st) = some (advance (ParseExternProto st).2)
    unfold HandleExtern
    rcases hd : ParseExternProto st with ⟨o, st1⟩
    rw [hd] at hn
    simp only at hn
    subst hn
    rfl
  · intro h1 h2 h3 h4 hn
    have key : some (HandleTopLevelExpression fuel protoOk bodyOk st)
        = some (advance (ParseTopLevelExpr fuel st).2) := by
      unfold HandleTopLevelExpression
      rcases hd : ParseTopLevelExpr fuel st with ⟨o, st1⟩
      rw [hd] at hn
      simp only at hn
      subst hn
      rfl
    cases hc : curTok st.toks
    case eof => exact absurd hc h1
    case defKw => exact absurd hc h2
    case externKw => exact absurd hc h3
    case ch c =>
      by_cases h59 : c = 59
      · exact absurd (h59 ▸ hc) h4
      · unfold MainLoopStep
        rw [hc]
        show (if c = 59 then some (advance st)
          else some (HandleTopLevelExpression fuel protoOk bodyOk st))
          = some (advance (ParseTopLevelExpr fuel st).2)
        rw [if_neg h59]
        exact key
    all_goals (unfold MainLoopStep; rw [hc]; exact key)

/-- Claim C7, witness: `def )` fails to parse; the driver consumes one
token past the failed parse and keeps looping; and the step is `none`
exactly at end of input. -/
theorem claim_C7_witness :
    ((ParseDefinition 16 ⟨[.defKw, .ch 42], BinopPrecedence⟩).1 = none
      ∧ MainLoopStep 16 true true ⟨[.defKw, .ch 42], BinopPrecedence⟩
        = some (advance (ParseDefinition 16 ⟨[.defKw, .ch 42], BinopPrecedence⟩).2))
    ∧ (MainLoopStep 16 true true ⟨[], BinopPrecedence⟩ = none
      ↔ curTok ([] : List Tok) = Tok.eof) :=
  ⟨⟨rfl,
      (claim_C7 16 true true ⟨[.defKw, .ch 42], BinopPrecedence⟩).2.1 rfl rfl⟩,
    (claim_C7 16 true true ⟨[], BinopPrecedence⟩).1⟩

end Kaleido
